import Mathlib

/-!
Shallow embedding of the `SimpleDistGradAggregator` class (CNTK distributed
gradient aggregator, header-only C++ source) together with proofs about its
spec.  Matrices are modelled as flat lists of exact integers (the claims are
about reduction structure, not floating-point rounding); machine `size_t`
arithmetic shows up only through the sentinel index `(size_t)-1`.
-/

namespace SDGA

/-- Sentinel index `(size_t)-1`: the first entry of
`m_gradientIndexToAggregate` stands for the packed aggregation buffer. -/
def NONE : Nat := 2 ^ 64 - 1

/-! ## List helpers used by the embedding proofs -/

/-- Elementwise integer addition as performed by an in-place sum reduction;
`List.zipWith` mirrors a buffer-to-buffer loop over a common length. -/
def vecAdd (a b : List Int) : List Int := List.zipWith (· + ·) a b

lemma vecAdd_getD (a b : List Int) (k : Nat) (h : a.length = b.length) :
    (vecAdd a b).getD k 0 = a.getD k 0 + b.getD k 0 := by
  induction a generalizing b k with
  | nil =>
    cases b with
    | nil => simp [vecAdd]
    | cons y ys => simp at h
  | cons x xs ih =>
    cases b with
    | nil => simp at h
    | cons y ys =>
      cases k with
      | zero => simp [vecAdd]
      | succ m =>
        simp only [vecAdd, List.zipWith_cons_cons, List.getD_cons_succ]
        exact ih ys m (by simpa using h)

lemma vecAdd_length (a b : List Int) :
    (vecAdd a b).length = min a.length b.length := by
  simp [vecAdd]

/-- The spec-side meaning of an elementwise sum across ranks: coordinate `k`
of the result is the sum of coordinate `k` of every rank's vector. -/
def sumAcross (vs : List (List Int)) (n : Nat) : List Int :=
  (List.range n).map fun k => (vs.map fun v => v.getD k 0).sum

lemma sumAcross_length (vs : List (List Int)) (n : Nat) :
    (sumAcross vs n).length = n := by
  simp [sumAcross]

lemma sumAcross_getD (vs : List (List Int)) (n k : Nat) (hk : k < n) :
    (sumAcross vs n).getD k 0 = (vs.map fun v => v.getD k 0).sum := by
  rw [List.getD_eq_getElem _ _ (by simpa [sumAcross_length] using hk)]
  simp [sumAcross]

/-! ## Statistics header (`DistGradHeader`) -/

/-- Statistics header carried next to the gradients.  Fields follow the
fixed layout `{numSamples, numSamplesWithLabel, criterion, evalErrors}`;
`numEvalNode` is represented by `evalErrors.length`, and the floating-point
`criterion` / first components are modelled with exact integers. -/
structure DistGradHeader where
  numSamples : Nat
  numSamplesWithLabel : Nat
  criterion : Int
  evalErrors : List (Int × Nat)
deriving DecidableEq, Repr, Inhabited

/-- Modelled from the spec: `DistGradHeader::Create(numEvalNode)` followed by
`Clear()` produces an all-zero header with `numEvalNode` eval-error slots
(the class itself lives outside the provided sources). -/
def DistGradHeader.create (numEvalNodes : Nat) : DistGradHeader :=
  ⟨0, 0, 0, List.replicate numEvalNodes (0, 0)⟩

/-- Modelled from the spec: `DistGradHeader::Clear()` zeroes every numeric
field while keeping the number of eval-error slots. -/
def DistGradHeader.clear (h : DistGradHeader) : DistGradHeader :=
  ⟨0, 0, 0, h.evalErrors.map fun _ => (0, 0)⟩

/-- Modelled from the spec: `DistGradHeader::Aggregate(other, reset)` combines
two headers elementwise by addition over all numeric fields (the `reset`
flag only clears `other` afterwards, which the caller never reads again). -/
def DistGradHeader.Aggregate (h other : DistGradHeader) : DistGradHeader :=
  { numSamples := h.numSamples + other.numSamples
    numSamplesWithLabel := h.numSamplesWithLabel + other.numSamplesWithLabel
    criterion := h.criterion + other.criterion
    evalErrors := List.zipWith (fun a b => (a.1 + b.1, a.2 + b.2)) h.evalErrors other.evalErrors }

/-- The main-rank wait-any loop of `AggregateGradientsImpl`: each received
header is folded into the local one with `Aggregate(other, reset := true)`,
in arrival order. -/
def aggregateHeaderFold (localHeader : DistGradHeader) (received : List DistGradHeader) :
    DistGradHeader :=
  received.foldl DistGradHeader.Aggregate localHeader

/-- The final `MPI_Bcast` of the aggregated header: every rank of the world
observes the same byte blob. -/
def bcastHeaders (h : DistGradHeader) (worldSize : Nat) : List DistGradHeader :=
  List.replicate worldSize h

lemma pairAdd_getD (a b : List (Int × Nat)) (k : Nat) (h : a.length = b.length) :
    (List.zipWith (fun x y => (x.1 + y.1, x.2 + y.2)) a b).getD k (0, 0)
      = ((a.getD k (0, 0)).1 + (b.getD k (0, 0)).1,
         (a.getD k (0, 0)).2 + (b.getD k (0, 0)).2) := by
  induction a generalizing b k with
  | nil =>
    cases b with
    | nil => simp
    | cons y ys => simp at h
  | cons x xs ih =>
    cases b with
    | nil => simp at h
    | cons y ys =>
      cases k with
      | zero => simp
      | succ m =>
        simp only [List.zipWith_cons_cons, List.getD_cons_succ]
        exact ih ys m (by simpa using h)

lemma aggregateHeaderFold_numSamples (h : DistGradHeader) (l : List DistGradHeader) :
    (aggregateHeaderFold h l).numSamples = h.numSamples + (l.map DistGradHeader.numSamples).sum := by
  induction l generalizing h with
  | nil => simp [aggregateHeaderFold]
  | cons x xs ih =>
    have hih := ih (h.Aggregate x)
    simp only [aggregateHeaderFold, List.foldl_cons, List.map_cons, List.sum_cons] at hih ⊢
    rw [hih]
    simp [DistGradHeader.Aggregate]
    omega

lemma aggregateHeaderFold_numSamplesWithLabel (h : DistGradHeader) (l : List DistGradHeader) :
    (aggregateHeaderFold h l).numSamplesWithLabel
      = h.numSamplesWithLabel + (l.map DistGradHeader.numSamplesWithLabel).sum := by
  induction l generalizing h with
  | nil => simp [aggregateHeaderFold]
  | cons x xs ih =>
    have hih := ih (h.Aggregate x)
    simp only [aggregateHeaderFold, List.foldl_cons, List.map_cons, List.sum_cons] at hih ⊢
    rw [hih]
    simp [DistGradHeader.Aggregate]
    omega

lemma aggregateHeaderFold_criterion (h : DistGradHeader) (l : List DistGradHeader) :
    (aggregateHeaderFold h l).criterion = h.criterion + (l.map DistGradHeader.criterion).sum := by
  induction l generalizing h with
  | nil => simp [aggregateHeaderFold]
  | cons x xs ih =>
    have hih := ih (h.Aggregate x)
    simp only [aggregateHeaderFold, List.foldl_cons, List.map_cons, List.sum_cons] at hih ⊢
    rw [hih]
    simp [DistGradHeader.Aggregate]
    ring

lemma aggregateHeaderFold_evalErrors (h : DistGradHeader) (l : List DistGradHeader)
    (hl : ∀ x ∈ l, x.evalErrors.length = h.evalErrors.length) :
    (aggregateHeaderFold h l).evalErrors.length = h.evalErrors.length
    ∧ ∀ k, ((aggregateHeaderFold h l).evalErrors.getD k (0, 0))
        = ((h.evalErrors.getD k (0, 0)).1 + (l.map fun x => (x.evalErrors.getD k (0, 0)).1).sum,
           (h.evalErrors.getD k (0, 0)).2 + (l.map fun x => (x.evalErrors.getD k (0, 0)).2).sum) := by
  induction l generalizing h with
  | nil => simp [aggregateHeaderFold]
  | cons x xs ih =>
    have hx : x.evalErrors.length = h.evalErrors.length := hl x (by simp)
    have hagg : (h.Aggregate x).evalErrors.length = h.evalErrors.length := by
      simp [DistGradHeader.Aggregate, hx]
    have hxs : ∀ y ∈ xs, y.evalErrors.length = (h.Aggregate x).evalErrors.length := by
      intro y hy
      rw [hagg]
      exact hl y (by simp [hy])
    obtain ⟨ihlen, ihget⟩ := ih (h.Aggregate x) hxs
    constructor
    · simpa [aggregateHeaderFold, hagg] using ihlen
    · intro k
      have hstep : (h.Aggregate x).evalErrors.getD k (0, 0)
          = ((h.evalErrors.getD k (0, 0)).1 + (x.evalErrors.getD k (0, 0)).1,
             (h.evalErrors.getD k (0, 0)).2 + (x.evalErrors.getD k (0, 0)).2) := by
        simpa [DistGradHeader.Aggregate] using
          pairAdd_getD h.evalErrors x.evalErrors k hx.symm
      have := ihget k
      simp only [aggregateHeaderFold, List.foldl_cons] at *
      rw [this, hstep]
      simp only [List.map_cons, List.sum_cons]
      rw [Prod.mk.injEq]
      refine ⟨by ring, by omega⟩

/-! ## MPI / NCCL / CUDA transport facades

The `MPIWrapper`, `NcclComm` and CUDA copy facilities are collaborators of
this repository that are not among the provided sources, so their reduction
semantics is modelled from the spec (section 6 lists the facade signatures
and section 4.2 fixes the reduction to an elementwise sum). -/

/-- The MPI reduction operations the aggregator passes around.  `opSum` is
`MPI_SUM`; `opMax` stands for any other associative-commutative `MPI_Op`
a caller may hand to `DistributedAllReduce`. -/
inductive MPIOp
  | opSum
  | opMax
deriving DecidableEq, Repr

/-- Pointwise action of an `MPI_Op` on two elements. -/
def MPIOp.app : MPIOp → Int → Int → Int
  | .opSum, a, b => a + b
  | .opMax, a, b => max a b

/-- Modelled from the spec: an MPI all-reduce with operation `op` across all
ranks; every rank contributes its buffer and receives the elementwise
`op`-fold of all contributions. -/
def mpiReduceWith (op : MPIOp) (bufs : List (List Int)) : List Int :=
  match bufs with
  | [] => []
  | b :: rest => rest.foldl (fun acc x => List.zipWith op.app acc x) b

/-- Modelled from the spec: `MPIWrapper::AllReduce(buf, count)` with no
explicit operation performs the default elementwise sum. -/
def mpiAllReduceDefault (bufs : List (List Int)) : List Int :=
  mpiReduceWith .opSum bufs

/-- Modelled from the spec: `MPIWrapper::Iallreduce(MPI_IN_PLACE, buf, count,
type, op, req)` followed by the matching `Wait` — an elementwise `op`
all-reduce. -/
def mpiIallreduce (op : MPIOp) (bufs : List (List Int)) : List Int :=
  mpiReduceWith op bufs

/-- Modelled from the spec: `cudaMemcpy(…, cudaMemcpyDeviceToHost)` into a
pinned staging buffer is value-preserving. -/
def copyDeviceToHost (b : List Int) : List Int := b

/-- Modelled from the spec: `cudaMemcpy(…, cudaMemcpyHostToDevice)` back into
the gradient tensor is value-preserving. -/
def copyHostToDevice (b : List Int) : List Int := b

/-- Modelled from the spec: `NcclComm::AllReduce` over a batch of tensors —
the elementwise sum across ranks for each tensor. -/
def ncclAllReduceSum (bufs : List (List Int)) : List Int :=
  mpiReduceWith .opSum bufs

/-- Modelled from the spec: `NcclComm::AllReduce(src, dst, count, op)` — an
elementwise `op` all-reduce across ranks. -/
def ncclAllReduceOp (op : MPIOp) (bufs : List (List Int)) : List Int :=
  mpiReduceWith op bufs

/-- The four transport strategies of `AggregateGradientsImpl`, selected from
`m_nccl->IsSupported()`, `m_mpi->UseGpuGdr()` and the device id. -/
inductive Transport
  | nccl
  | stagedGpu
  | gdrGpu
  | cpuNonBlocking
deriving DecidableEq, Repr

/-- What one reduction of `AggregateGradientsImpl` does to the per-rank
copies of a single buffer, per transport branch: the NCCL branch batches the
buffer into `m_nccl->AllReduce`; the staged branch copies device-to-host,
calls `m_mpi->AllReduce` (default sum) and copies back; the GDR branch calls
`m_mpi->AllReduce` directly on device pointers; the CPU branch issues
`m_mpi->Iallreduce(…, MPI_SUM, …)` and waits. -/
def transportReduce : Transport → List (List Int) → List Int
  | .nccl, bufs => ncclAllReduceSum bufs
  | .stagedGpu, bufs => copyHostToDevice (mpiAllReduceDefault (bufs.map copyDeviceToHost))
  | .gdrGpu, bufs => mpiAllReduceDefault bufs
  | .cpuNonBlocking, bufs => mpiIallreduce .opSum bufs

lemma map_copyDeviceToHost (bufs : List (List Int)) :
    bufs.map copyDeviceToHost = bufs := by
  induction bufs with
  | nil => rfl
  | cons b rest ih => simp [copyDeviceToHost, ih]

lemma transportReduce_eq_sum (br : Transport) (bufs : List (List Int)) :
    transportReduce br bufs = mpiReduceWith .opSum bufs := by
  cases br <;>
    simp [transportReduce, ncclAllReduceSum, mpiAllReduceDefault, mpiIallreduce,
      copyHostToDevice, map_copyDeviceToHost]

lemma mpiOp_sum_app : MPIOp.app .opSum = (· + ·) := rfl

lemma mpiReduceWith_sum_eq_sumAcross (vs : List (List Int)) (n : Nat)
    (hne : vs ≠ []) (hlen : ∀ v ∈ vs, v.length = n) :
    mpiReduceWith .opSum vs = sumAcross vs n := by
  obtain ⟨b, rest, rfl⟩ := List.exists_cons_of_ne_nil hne
  have key : ∀ (l : List (List Int)) (acc : List Int), acc.length = n →
      (∀ v ∈ l, v.length = n) →
      l.foldl (fun acc x => List.zipWith MPIOp.opSum.app acc x) acc
        = (List.range n).map fun k => acc.getD k 0 + (l.map fun v => v.getD k 0).sum := by
    intro l
    induction l with
    | nil =>
      intro acc hacc _
      simp only [List.foldl_nil, List.map_nil, List.sum_nil]
      apply List.ext_getElem (by simp [hacc])
      intro k hk1 hk2
      simp only [List.getElem_map, List.getElem_range]
      rw [List.getD_eq_getElem acc 0 hk1]
      omega
    | cons x xs ih =>
      intro acc hacc hl
      have hx : x.length = n := hl x (by simp)
      have hzip : (List.zipWith MPIOp.opSum.app acc x).length = n := by
        simp [hacc, hx]
      rw [List.foldl_cons, ih _ hzip (fun v hv => hl v (by simp [hv]))]
      apply List.map_congr_left
      intro k hk
      have hk' : k < n := List.mem_range.mp hk
      have : (List.zipWith MPIOp.opSum.app acc x).getD k 0 = acc.getD k 0 + x.getD k 0 := by
        have h2 := vecAdd_getD acc x k (by omega)
        simpa [vecAdd, mpiOp_sum_app] using h2
      rw [this]
      simp only [List.map_cons, List.sum_cons]
      ring
  have hb : b.length = n := hlen b (by simp)
  rw [mpiReduceWith, key rest b hb (fun v hv => hlen v (by simp [hv]))]
  apply List.ext_getElem (by simp [sumAcross_length])
  intro k hk1 hk2
  have hk : k < n := by simpa using hk1
  have := sumAcross_getD (b :: rest) n k hk
  rw [List.getD_eq_getElem _ 0 hk2] at this
  rw [this]
  simp only [List.getElem_map, List.getElem_range, List.map_cons, List.sum_cons]

/-! ## Aggregator configuration and the packed/standalone classification -/

/-- Constructor parameters and per-run environment of
`SimpleDistGradAggregator`: `worldSize` is `m_mpi->NumNodesInUse()`,
`useAsync` is `m_useAsyncAggregation`, `isMainNode` is `m_mpi->IsMainNode()`,
`elemSize` is `sizeof(ElemType)`, `packThresholdBytes` is
`m_packThresholdSizeInBytes`, and `allocOk` records whether the
`new (std::nothrow) Matrix` allocation of the packed buffer succeeds. -/
structure AggConfig where
  worldSize : Nat
  useAsync : Bool
  isMainNode : Bool
  elemSize : Nat
  packThresholdBytes : Nat
  allocOk : Bool
deriving DecidableEq, Repr

/-- The packing test of the `ResetState` classification loop: gradient `i`
is packed iff async aggregation is off and
`sizeof(ElemType) * GetNumElements() <= m_packThresholdSizeInBytes`. -/
def packEligible (cfg : AggConfig) (sizes : List Nat) (i : Nat) : Bool :=
  !cfg.useAsync && decide (cfg.elemSize * sizes.getD i 0 ≤ cfg.packThresholdBytes)

/-- The list `m_packedGradientsIndex` as filled by the classification loop of
`ResetState` (position order preserved, so a filter over `0, …, N-1`). -/
def classifyPacked (cfg : AggConfig) (sizes : List Nat) : List Nat :=
  (List.range sizes.length).filter (packEligible cfg sizes)

/-- The list `m_gradientIndexToAggregate` as filled by the classification loop of
`ResetState`, before the sentinel insertion. -/
def classifyStandalone (cfg : AggConfig) (sizes : List Nat) : List Nat :=
  (List.range sizes.length).filter fun i => !packEligible cfg sizes i

/-- The counter `packedGradientsSizeInElements` accumulated by the classification loop. -/
def packedTotal (cfg : AggConfig) (sizes : List Nat) : Nat :=
  ((classifyPacked cfg sizes).map fun i => sizes.getD i 0).sum

/-- The final packed/standalone partition produced by the initialization
branch of `ResetState`: the packed buffer is allocated iff some elements were
packed; if it is missing (nothing packed, async mode, or failed allocation)
both lists are rebuilt with every index standalone, otherwise the sentinel
`NONE` is prepended to the standalone list. -/
def resetStateClassify (cfg : AggConfig) (sizes : List Nat) : List Nat × List Nat :=
  let packed := classifyPacked cfg sizes
  let standalone := classifyStandalone cfg sizes
  if 0 < packedTotal cfg sizes ∧ cfg.allocOk = true then
    (packed, NONE :: standalone)
  else
    ([], List.range sizes.length)

lemma mem_classifyPacked (cfg : AggConfig) (sizes : List Nat) (i : Nat) :
    i ∈ classifyPacked cfg sizes ↔ i < sizes.length ∧ packEligible cfg sizes i = true := by
  simp [classifyPacked, List.mem_filter]

lemma mem_classifyStandalone (cfg : AggConfig) (sizes : List Nat) (i : Nat) :
    i ∈ classifyStandalone cfg sizes ↔ i < sizes.length ∧ packEligible cfg sizes i = false := by
  simp [classifyStandalone, List.mem_filter]

lemma classifyPacked_nodup (cfg : AggConfig) (sizes : List Nat) :
    (classifyPacked cfg sizes).Nodup :=
  (List.nodup_range _).filter _

lemma classifyPacked_lt (cfg : AggConfig) (sizes : List Nat) :
    ∀ i ∈ classifyPacked cfg sizes, i < sizes.length := fun i hi =>
  ((mem_classifyPacked cfg sizes i).mp hi).1

/-- When every gradient has at least one element, a non-empty packed list
forces a positive packed element total. -/
lemma packedTotal_pos (cfg : AggConfig) (sizes : List Nat)
    (hpos : ∀ s ∈ sizes, 0 < s) (hne : classifyPacked cfg sizes ≠ []) :
    0 < packedTotal cfg sizes := by
  obtain ⟨i, hi⟩ := List.exists_mem_of_ne_nil _ hne
  have hlt : i < sizes.length := classifyPacked_lt cfg sizes i hi
  have hsi : 0 < sizes.getD i 0 := by
    rw [List.getD_eq_getElem sizes 0 hlt]
    exact hpos _ (List.getElem_mem hlt)
  have : sizes.getD i 0 ∈ (classifyPacked cfg sizes).map fun j => sizes.getD j 0 :=
    List.mem_map_of_mem _ hi
  calc 0 < sizes.getD i 0 := hsi
    _ ≤ packedTotal cfg sizes := List.single_le_sum (fun _ _ => Nat.zero_le _) _ this

/-- If the packed element total is zero then no index is pack-eligible. -/
lemma packedTotal_zero (cfg : AggConfig) (sizes : List Nat)
    (hpos : ∀ s ∈ sizes, 0 < s) (h : packedTotal cfg sizes = 0) :
    classifyPacked cfg sizes = [] := by
  by_contra hne
  exact absurd h (Nat.pos_iff_ne_zero.mp (packedTotal_pos cfg sizes hpos hne))

/-! ## Value-level model of `AggregateGradientsImpl`

One rank's input is its list of dense gradient tensors (flattened, since the
implementation only ever touches them through `Data()` / `Reshaped(1, n)` /
`ColumnSlice`) and its statistics header.  The multi-rank semantics of one
synchronous (or dispatched asynchronous) call is a pure function of every
rank's input, because each transport's collective delivers the same
elementwise reduction to every rank. -/

structure RankInput where
  grads : List (List Int)
  header : DistGradHeader
deriving DecidableEq, Repr, Inhabited

/-- The zero-sample guard at the top of `AggregateGradientsImpl`: a rank
whose header counts no samples sets every local gradient to zero
(`gradients[i]->SetValue(0)`) before the reduction. -/
def zeroIfNoSamples (inp : RankInput) : List (List Int) :=
  if inp.header.numSamples = 0 then
    inp.grads.map fun g => List.replicate g.length 0
  else inp.grads

/-- The pack loop: each packed gradient is copied (reshaped to one row) into
the next contiguous column slice of `m_aggregationBuffer`, i.e. the buffer is
the concatenation of the packed gradients in `m_packedGradientsIndex` order. -/
def packBuffer (packedIdx : List Nat) (grads : List (List Int)) : List Int :=
  (packedIdx.map fun i => grads.getD i []).flatten

/-- The reduction loop over `m_gradientIndexToAggregate`: every non-sentinel
entry `i` has `gradients[i]` replaced (in place or via staging copies) by the
cross-rank reduction of that tensor; the sentinel entry is the packed buffer,
reduced separately. -/
def applyStandalone (br : Transport) (gs : List (List (List Int))) :
    List Nat → List (List Int) → List (List Int)
  | [], my => my
  | i :: rest, my =>
    applyStandalone br gs rest
      (if i = NONE then my
       else my.set i (transportReduce br (gs.map fun g => g.getD i [])))

/-- The unpack loop: `gradients[i] := m_aggregationBuffer->ColumnSlice(offset,
n_i)` for each packed position, advancing the offset cursor. -/
def writeBackAux : List Nat → List Int → Nat → List (List Int) → List (List Int)
  | [], _, _, grads => grads
  | i :: rest, buf, off, grads =>
    writeBackAux rest buf (off + (grads.getD i []).length)
      (grads.set i ((buf.drop off).take (grads.getD i []).length))

/-- Multi-rank semantics of `AggregateGradientsImpl` for one call: zero-sample
ranks zero their gradients, every rank packs its small gradients into the
shared buffer, the buffer and every standalone tensor are all-reduced with
the selected transport, and the packed slices are scattered back. -/
def AggregateGradientsImpl (br : Transport) (packedIdx toAgg : List Nat)
    (inputs : List RankInput) : List (List (List Int)) :=
  let gs := inputs.map zeroIfNoSamples
  let reducedBuf := transportReduce br (gs.map (packBuffer packedIdx))
  gs.map fun my => writeBackAux packedIdx reducedBuf 0 (applyStandalone br gs toAgg my)

/-! ## Generic facts about `List.set`, used by the write-back proofs -/

lemma getD_set_self {α : Type} (l : List α) (i : Nat) (v d : α) (h : i < l.length) :
    (l.set i v).getD i d = v := by
  induction l generalizing i with
  | nil => simp at h
  | cons x xs ih =>
    cases i with
    | zero => simp
    | succ m => simpa using ih m (by simpa using h)

lemma getD_set_ne {α : Type} (l : List α) (i j : Nat) (v d : α) (h : i ≠ j) :
    (l.set i v).getD j d = l.getD j d := by
  induction l generalizing i j with
  | nil => simp
  | cons x xs ih =>
    cases i with
    | zero =>
      cases j with
      | zero => exact absurd rfl h
      | succ m => simp
    | succ m =>
      cases j with
      | zero => simp
      | succ p => simpa using ih m p (by omega)

lemma map_length_set (l : List (List Int)) (i : Nat) (v : List Int) :
    (l.set i v).map List.length = (l.map List.length).set i v.length := by
  induction l generalizing i with
  | nil => simp
  | cons x xs ih =>
    cases i with
    | zero => simp
    | succ m => simp [ih m]

/-! ## Behaviour of the standalone reduction and write-back loops -/

lemma applyStandalone_getD_not_mem (br : Transport) (gs : List (List (List Int)))
    (t : List Nat) (my : List (List Int)) (i : Nat) (hi : i ∉ t) :
    (applyStandalone br gs t my).getD i [] = my.getD i [] := by
  induction t generalizing my with
  | nil => rfl
  | cons j rest ih =>
    have hj : j ≠ i := fun hji => hi (hji ▸ List.mem_cons_self j rest)
    have hir : i ∉ rest := fun hir => hi (List.mem_cons_of_mem j hir)
    simp only [applyStandalone]
    rw [ih _ hir]
    by_cases hN : j = NONE
    · rw [if_pos hN]
    · rw [if_neg hN, getD_set_ne my j i _ [] hj]

lemma applyStandalone_getD_mem (br : Transport) (gs : List (List (List Int)))
    (t : List Nat) (my : List (List Int)) (i : Nat)
    (ht : t.Nodup) (hi : i ∈ t) (hiN : i ≠ NONE) (hlen : i < my.length) :
    (applyStandalone br gs t my).getD i []
      = transportReduce br (gs.map fun g => g.getD i []) := by
  induction t generalizing my with
  | nil => simp at hi
  | cons j rest ih =>
    simp only [applyStandalone]
    rcases List.mem_cons.mp hi with hji | hir
    · subst hji
      have hrest : i ∉ rest := (List.nodup_cons.mp ht).1
      rw [applyStandalone_getD_not_mem br gs rest _ i hrest, if_neg hiN,
        getD_set_self my i _ [] hlen]
    · have hset : my.length ≤ (if j = NONE then my
          else my.set j (transportReduce br (gs.map fun g => g.getD j []))).length := by
        by_cases hN : j = NONE <;> simp [hN]
      exact ih _ (List.nodup_cons.mp ht).2 hir (by omega)

lemma applyStandalone_length (br : Transport) (gs : List (List (List Int)))
    (t : List Nat) (my : List (List Int)) :
    (applyStandalone br gs t my).length = my.length := by
  induction t generalizing my with
  | nil => rfl
  | cons j rest ih =>
    simp only [applyStandalone]
    rw [ih]
    by_cases hN : j = NONE <;> simp [hN]

lemma writeBackAux_length (p : List Nat) (buf : List Int) (off : Nat)
    (grads : List (List Int)) :
    (writeBackAux p buf off grads).length = grads.length := by
  induction p generalizing off grads with
  | nil => rfl
  | cons i rest ih => simp [writeBackAux, ih]

lemma writeBackAux_getD_not_mem (p : List Nat) (buf : List Int) (off : Nat)
    (grads : List (List Int)) (i : Nat) (hi : i ∉ p) :
    (writeBackAux p buf off grads).getD i [] = grads.getD i [] := by
  induction p generalizing off grads with
  | nil => rfl
  | cons j rest ih =>
    have hj : j ≠ i := fun hji => hi (hji ▸ List.mem_cons_self j rest)
    have hir : i ∉ rest := fun hir => hi (List.mem_cons_of_mem j hir)
    simp only [writeBackAux]
    rw [ih _ _ hir, getD_set_ne grads j i _ [] hj]

/-- Unpack correctness: if from offset `off` onward the reduction buffer
holds the blocks for the packed positions in order, each with the length of
the corresponding (current) gradient, then the write-back loop assigns block
`j` to position `p[j]`. -/
lemma writeBackAux_getD_mem (p : List Nat) :
    ∀ (blocks : List (List Int)) (buf : List Int) (off : Nat) (grads : List (List Int)),
    p.Nodup → (∀ x ∈ p, x < grads.length) →
    blocks.length = p.length →
    buf.drop off = blocks.flatten →
    (∀ j (hj : j < p.length) (hj2 : j < blocks.length),
        (blocks.get ⟨j, hj2⟩).length = (grads.getD (p.get ⟨j, hj⟩) []).length) →
    ∀ j (hj : j < p.length) (hj2 : j < blocks.length),
      (writeBackAux p buf off grads).getD (p.get ⟨j, hj⟩) [] = blocks.get ⟨j, hj2⟩ := by
  induction p with
  | nil => intro _ _ _ _ _ _ _ _ _ j hj; simp at hj
  | cons i rest ih =>
    intro blocks buf off grads hnd hlt hbl hbuf hlens j hj hj2
    cases blocks with
    | nil => simp at hbl
    | cons blk brest =>
      have hblk : blk.length = (grads.getD i []).length := by
        simpa using hlens 0 (by simp) (by simp)
      have htake : (buf.drop off).take (grads.getD i []).length = blk := by
        rw [hbuf, ← hblk]
        simp [List.take_left]
      have hdrop : buf.drop (off + (grads.getD i []).length) = brest.flatten := by
        rw [← List.drop_drop, hbuf, ← hblk]
        simp [List.drop_left]
      have hndr := List.nodup_cons.mp hnd
      simp only [writeBackAux, htake]
      cases j with
      | zero =>
        show (writeBackAux rest buf (off + (grads.getD i []).length)
            (grads.set i blk)).getD i [] = blk
        rw [writeBackAux_getD_not_mem rest _ _ _ i hndr.1]
        exact getD_set_self grads i blk [] (hlt i (by simp))
      | succ m =>
        have hm : m < rest.length := by simpa using hj
        have hm2 : m < brest.length := by simpa using hj2
        have hlt2 : ∀ x ∈ rest, x < (grads.set i blk).length := by
          intro x hx
          simpa using hlt x (by simp [hx])
        have hlens2 : ∀ k (hk : k < rest.length) (hk2 : k < brest.length),
            (brest.get ⟨k, hk2⟩).length
              = ((grads.set i blk).getD (rest.get ⟨k, hk⟩) []).length := by
          intro k hkr hkb
          have hmem : rest.get ⟨k, hkr⟩ ∈ rest := List.get_mem rest k hkr
          have hne : i ≠ rest.get ⟨k, hkr⟩ := fun heq => hndr.1 (heq ▸ hmem)
          rw [getD_set_ne grads i _ blk [] hne]
          have := hlens (k + 1) (by simpa using hkr) (by simpa using hkb)
          simpa using this
        have hres := ih brest buf (off + (grads.getD i []).length) (grads.set i blk)
          hndr.2 hlt2 (by simpa using hbl) hdrop hlens2 m hm hm2
        simpa using hres

/-! ## Splitting a reduction of concatenated buffers into blocks -/

lemma getD_map_of_lt {α β : Type} (f : α → β) (l : List α) (r : Nat)
    (dα : α) (dβ : β) (h : r < l.length) :
    (l.map f).getD r dβ = f (l.getD r dα) := by
  rw [List.getD_eq_getElem _ _ (by simpa using h), List.getD_eq_getElem _ _ h]
  simp

lemma shape_getD (g : List (List Int)) (sizes : List Nat) (h : g.map List.length = sizes)
    (i : Nat) (hi : i < sizes.length) : (g.getD i []).length = sizes.getD i 0 := by
  have hlen : g.length = sizes.length := by
    simpa using congrArg List.length h
  rw [List.getD_eq_getElem g [] (by omega), List.getD_eq_getElem sizes 0 hi]
  have := congrArg (fun l => l.getD i 0) h
  simp only [] at this
  rw [List.getD_eq_getElem _ 0 (by simp only [List.length_map]; omega),
    List.getD_eq_getElem sizes 0 hi] at this
  simpa using this

lemma sumAcross_map_append (gs : List (List (List Int)))
    (a b : List (List Int) → List Int) (m n : Nat)
    (ha : ∀ g ∈ gs, (a g).length = m) :
    sumAcross (gs.map fun g => a g ++ b g) (m + n)
      = sumAcross (gs.map a) m ++ sumAcross (gs.map b) n := by
  apply List.ext_getElem (by simp [sumAcross_length])
  intro k hk1 hk2
  have hk : k < m + n := by simpa [sumAcross_length] using hk1
  rw [← List.getD_eq_getElem _ 0 hk1, ← List.getD_eq_getElem _ 0 hk2]
  by_cases hkm : k < m
  · rw [List.getD_append _ _ 0 k (by simpa [sumAcross_length]),
      sumAcross_getD _ _ _ hk, sumAcross_getD _ _ _ hkm]
    simp only [List.map_map]
    apply congrArg
    apply List.map_congr_left
    intro g hg
    simp only [Function.comp_apply]
    exact List.getD_append _ _ 0 k (by rw [ha g hg]; omega)
  · have hm : m ≤ k := by omega
    rw [List.getD_append_right _ _ 0 k (by simpa [sumAcross_length]),
      sumAcross_getD _ _ _ hk, sumAcross_length,
      sumAcross_getD _ _ _ (by omega : k - m < n)]
    simp only [List.map_map]
    apply congrArg
    apply List.map_congr_left
    intro g hg
    simp only [Function.comp_apply]
    have := List.getD_append_right (a g) (b g) 0 k (by rw [ha g hg]; omega)
    rw [this, ha g hg]

lemma reduceSum_map_append (gs : List (List (List Int)))
    (a b : List (List Int) → List Int) (m n : Nat) (hne : gs ≠ [])
    (ha : ∀ g ∈ gs, (a g).length = m) (hb : ∀ g ∈ gs, (b g).length = n) :
    mpiReduceWith .opSum (gs.map fun g => a g ++ b g)
      = mpiReduceWith .opSum (gs.map a) ++ mpiReduceWith .opSum (gs.map b) := by
  rw [mpiReduceWith_sum_eq_sumAcross (gs.map fun g => a g ++ b g) (m + n)
      (by simpa using hne)
      (by intro v hv; obtain ⟨g, hg, rfl⟩ := List.mem_map.mp hv; simp [ha g hg, hb g hg]),
    mpiReduceWith_sum_eq_sumAcross (gs.map a) m (by simpa using hne)
      (by intro v hv; obtain ⟨g, hg, rfl⟩ := List.mem_map.mp hv; exact ha g hg),
    mpiReduceWith_sum_eq_sumAcross (gs.map b) n (by simpa using hne)
      (by intro v hv; obtain ⟨g, hg, rfl⟩ := List.mem_map.mp hv; exact hb g hg)]
  exact sumAcross_map_append gs a b m n ha

lemma packBuffer_length (sizes : List Nat) (g : List (List Int))
    (hg : g.map List.length = sizes) (l : List Nat) (hl : ∀ x ∈ l, x < sizes.length) :
    (packBuffer l g).length = (l.map fun i => sizes.getD i 0).sum := by
  induction l with
  | nil => rfl
  | cons i rest ih =>
    have hi : i < sizes.length := hl i (by simp)
    simp only [packBuffer, List.map_cons, List.flatten_cons, List.length_append,
      List.sum_cons]
    rw [shape_getD g sizes hg i hi]
    have := ih fun x hx => hl x (by simp [hx])
    simp only [packBuffer] at this
    rw [this]

/-- Reducing the packed buffers of all ranks equals, blockwise, the
concatenation of the per-gradient reductions of the packed positions. -/
lemma reduce_packBuffer (sizes : List Nat) (gs : List (List (List Int)))
    (hne : gs ≠ []) (hshapes : ∀ g ∈ gs, g.map List.length = sizes)
    (p : List Nat) (hp : ∀ x ∈ p, x < sizes.length) :
    mpiReduceWith .opSum (gs.map (packBuffer p))
      = (p.map fun i => mpiReduceWith .opSum (gs.map fun g => g.getD i [])).flatten := by
  induction p with
  | nil =>
    rw [mpiReduceWith_sum_eq_sumAcross (gs.map (packBuffer [])) 0 (by simpa using hne)
      (by intro v hv; obtain ⟨g, hg, rfl⟩ := List.mem_map.mp hv; rfl)]
    simp [sumAcross]
  | cons i rest ih =>
    have hi : i < sizes.length := hp i (by simp)
    have hsplit : (gs.map (packBuffer (i :: rest)))
        = gs.map fun g => g.getD i [] ++ packBuffer rest g := rfl
    rw [hsplit, reduceSum_map_append gs (fun g => g.getD i []) (packBuffer rest)
      (sizes.getD i 0) ((rest.map fun j => sizes.getD j 0).sum) hne
      (fun g hg => shape_getD g sizes (hshapes g hg) i hi)
      (fun g hg => packBuffer_length sizes g (hshapes g hg) rest
        fun x hx => hp x (by simp [hx]))]
    rw [ih fun x hx => hp x (by simp [hx])]
    rfl

/-! ## Core correctness of the multi-rank reduction -/

lemma zeroIfNoSamples_shape (inp : RankInput) :
    (zeroIfNoSamples inp).map List.length = inp.grads.map List.length := by
  unfold zeroIfNoSamples
  split
  · simp [List.map_map, Function.comp]
  · rfl

lemma classifyStandalone_nodup (cfg : AggConfig) (sizes : List Nat) :
    (classifyStandalone cfg sizes).Nodup :=
  (List.nodup_range _).filter _

lemma classifyStandalone_lt (cfg : AggConfig) (sizes : List Nat) :
    ∀ i ∈ classifyStandalone cfg sizes, i < sizes.length := fun i hi =>
  ((mem_classifyStandalone cfg sizes i).mp hi).1

/-- Every rank's copy of every gradient position ends up as the elementwise
sum, across ranks, of the (zero-sample-corrected) pre-aggregation gradients,
for any transport branch and for the partition produced by `ResetState`. -/
lemma AggregateGradientsImpl_getD (br : Transport) (cfg : AggConfig) (sizes : List Nat)
    (inputs : List RankInput) (hne : inputs ≠ [])
    (hshapes : ∀ inp ∈ inputs, inp.grads.map List.length = sizes)
    (hNN : sizes.length ≤ NONE) :
    ∀ r, r < inputs.length → ∀ i, i < sizes.length →
      ((AggregateGradientsImpl br (resetStateClassify cfg sizes).1
          (resetStateClassify cfg sizes).2 inputs).getD r []).getD i []
        = sumAcross ((inputs.map zeroIfNoSamples).map fun g => g.getD i [])
            (sizes.getD i 0) := by
  intro r hr i hi
  set gs := inputs.map zeroIfNoSamples with hgs
  have hgsne : gs ≠ [] := by simpa [hgs] using hne
  have hgshape : ∀ g ∈ gs, g.map List.length = sizes := by
    intro g hg
    obtain ⟨inp, hinp, rfl⟩ := List.mem_map.mp hg
    rw [zeroIfNoSamples_shape]
    exact hshapes inp hinp
  have hglen : ∀ g ∈ gs, g.length = sizes.length := by
    intro g hg
    simpa using congrArg List.length (hgshape g hg)
  have hred : ∀ j, j < sizes.length →
      transportReduce br (gs.map fun g => g.getD j [])
        = sumAcross (gs.map fun g => g.getD j []) (sizes.getD j 0) := by
    intro j hj
    rw [transportReduce_eq_sum]
    refine mpiReduceWith_sum_eq_sumAcross _ _ (by simpa using hgsne) ?_
    intro v hv
    obtain ⟨g, hg, rfl⟩ := List.mem_map.mp hv
    exact shape_getD g sizes (hgshape g hg) j hj
  have hrlen : r < gs.length := by simpa [hgs] using hr
  have hmy : gs.getD r [] ∈ gs := by
    rw [List.getD_eq_getElem gs [] hrlen]
    exact List.getElem_mem hrlen
  have hmylen : (gs.getD r []).length = sizes.length := hglen _ hmy
  have hresult : (AggregateGradientsImpl br (resetStateClassify cfg sizes).1
      (resetStateClassify cfg sizes).2 inputs).getD r []
      = writeBackAux (resetStateClassify cfg sizes).1
          (transportReduce br (gs.map (packBuffer (resetStateClassify cfg sizes).1))) 0
          (applyStandalone br gs (resetStateClassify cfg sizes).2 (gs.getD r [])) := by
    rw [AggregateGradientsImpl]
    exact getD_map_of_lt _ gs r [] [] hrlen
  rw [hresult]
  by_cases hcond : 0 < packedTotal cfg sizes ∧ cfg.allocOk = true
  case neg =>
    -- Fallback: no packed buffer; every index is standalone.
    have hPT : resetStateClassify cfg sizes = ([], List.range sizes.length) := by
      rw [resetStateClassify, if_neg hcond]
    have hP1 : (resetStateClassify cfg sizes).1 = [] := by rw [hPT]
    have hP2 : (resetStateClassify cfg sizes).2 = List.range sizes.length := by rw [hPT]
    rw [hP1, hP2]
    simp only [writeBackAux]
    rw [applyStandalone_getD_mem br gs (List.range sizes.length) (gs.getD r []) i
      (List.nodup_range _) (List.mem_range.mpr hi) (by omega) (by omega)]
    exact hred i hi
  case pos =>
    have hPT : resetStateClassify cfg sizes
        = (classifyPacked cfg sizes, NONE :: classifyStandalone cfg sizes) := by
      rw [resetStateClassify, if_pos hcond]
    have hP1 : (resetStateClassify cfg sizes).1 = classifyPacked cfg sizes := by rw [hPT]
    have hP2 : (resetStateClassify cfg sizes).2
        = NONE :: classifyStandalone cfg sizes := by rw [hPT]
    rw [hP1, hP2]
    have hTnodup : (NONE :: classifyStandalone cfg sizes).Nodup := by
      refine List.nodup_cons.mpr ⟨?_, classifyStandalone_nodup cfg sizes⟩
      intro hmem
      have := classifyStandalone_lt cfg sizes NONE hmem
      omega
    by_cases helig : packEligible cfg sizes i = true
    case pos =>
      -- Packed position: untouched by the standalone loop, written back from
      -- the reduced packed buffer.
      have hiP : i ∈ classifyPacked cfg sizes :=
        (mem_classifyPacked cfg sizes i).mpr ⟨hi, helig⟩
      obtain ⟨⟨j, hj⟩, hPj⟩ := List.mem_iff_get.mp hiP
      have hbuf : transportReduce br (gs.map (packBuffer (classifyPacked cfg sizes)))
          = ((classifyPacked cfg sizes).map fun x =>
              transportReduce br (gs.map fun g => g.getD x [])).flatten := by
        rw [transportReduce_eq_sum,
          reduce_packBuffer sizes gs hgsne hgshape _ (classifyPacked_lt cfg sizes)]
        apply congrArg
        apply List.map_congr_left
        intro x _
        rw [transportReduce_eq_sum]
      set grads2 := applyStandalone br gs (NONE :: classifyStandalone cfg sizes)
        (gs.getD r []) with hgrads2
      have hglen2 : grads2.length = sizes.length := by
        rw [hgrads2, applyStandalone_length, hmylen]
      have hguntouched : ∀ x ∈ classifyPacked cfg sizes,
          grads2.getD x [] = (gs.getD r []).getD x [] := by
        intro x hx
        refine applyStandalone_getD_not_mem br gs _ _ x ?_
        intro hmem
        rcases List.mem_cons.mp hmem with hN | hS
        · have := classifyPacked_lt cfg sizes x hx
          omega
        · have h1 := ((mem_classifyPacked cfg sizes x).mp hx).2
          have h2 := ((mem_classifyStandalone cfg sizes x).mp hS).2
          rw [h1] at h2
          exact Bool.noConfusion h2
      have hlens2 : ∀ k (hk : k < (classifyPacked cfg sizes).length)
          (hk2 : k < ((classifyPacked cfg sizes).map fun x =>
            transportReduce br (gs.map fun g => g.getD x [])).length),
          ((((classifyPacked cfg sizes).map fun x =>
              transportReduce br (gs.map fun g => g.getD x [])).get ⟨k, hk2⟩)).length
            = (grads2.getD ((classifyPacked cfg sizes).get ⟨k, hk⟩) []).length := by
        intro k hk hk2
        have hxk : (classifyPacked cfg sizes).get ⟨k, hk⟩ ∈ classifyPacked cfg sizes :=
          List.get_mem _ k hk
        have hxlt := classifyPacked_lt cfg sizes _ hxk
        have hblock : (((classifyPacked cfg sizes).map fun x =>
            transportReduce br (gs.map fun g => g.getD x [])).get ⟨k, hk2⟩)
            = transportReduce br (gs.map fun g =>
                g.getD ((classifyPacked cfg sizes).get ⟨k, hk⟩) []) := by
          simp
        rw [hblock, hguntouched _ hxk, hred _ hxlt, sumAcross_length]
        exact (shape_getD _ sizes (hgshape _ hmy) _ hxlt).symm
      have hwb := writeBackAux_getD_mem (classifyPacked cfg sizes)
        ((classifyPacked cfg sizes).map fun x =>
            transportReduce br (gs.map fun g => g.getD x []))
        (transportReduce br (gs.map (packBuffer (classifyPacked cfg sizes)))) 0 grads2
        (classifyPacked_nodup cfg sizes)
        (by intro x hx; rw [hglen2]; exact classifyPacked_lt cfg sizes x hx)
        (by simp)
        (by simpa using hbuf)
        hlens2 j hj (by simpa using hj)
      rw [hPj] at hwb
      rw [hwb]
      have hgetmap : (((classifyPacked cfg sizes).map fun x =>
          transportReduce br (gs.map fun g => g.getD x [])).get ⟨j, by simpa using hj⟩)
          = transportReduce br (gs.map fun g =>
              g.getD ((classifyPacked cfg sizes).get ⟨j, hj⟩) []) := by
        simp
      rw [hgetmap, hPj]
      exact hred i hi
    case neg =>
      -- Standalone position: set by the reduction loop, untouched by the
      -- packed write-back.
      have hiS : i ∈ classifyStandalone cfg sizes :=
        (mem_classifyStandalone cfg sizes i).mpr
          ⟨hi, by simpa using helig⟩
      have hiP : i ∉ classifyPacked cfg sizes := by
        intro hmem
        exact helig ((mem_classifyPacked cfg sizes i).mp hmem).2
      rw [writeBackAux_getD_not_mem _ _ _ _ i hiP,
        applyStandalone_getD_mem br gs _ (gs.getD r []) i hTnodup
          (List.mem_cons_of_mem _ hiS) (by omega) (by omega)]
      exact hred i hi

/-! ## Control-level model of the aggregator lifecycle

The value-level reduction above is deterministic given every rank's input;
the remaining behaviour of `AggregateGradients` is rank-local control flow
over the member state of `SimpleDistGradAggregator`.  Matrices enter this
level only through their shapes (`GetNumRows/GetNumCols/GetNumElements`);
only dense gradients are modelled, since sparse ones are rejected up front
with a fatal `RuntimeError` before any state changes. -/

/-- Shape of a gradient matrix as seen by the control flow. -/
structure GradShape where
  rows : Nat
  cols : Nat
deriving DecidableEq, Repr, Inhabited

/-- Value of `Matrix::GetNumElements()`. -/
def GradShape.numElements (g : GradShape) : Nat := g.rows * g.cols

/-- The fatal error reports the aggregator can raise (`LogicError`). -/
inductive AggError
  | pendingAtReset
  | shadowMismatch
deriving DecidableEq, Repr

/-- Member state of `SimpleDistGradAggregator` relevant to the claims:
`initialized` is `m_initialized`, the two index lists are
`m_packedGradientsIndex` / `m_gradientIndexToAggregate`, `pendingValid` is
`m_pendingAsyncAggregation.valid()`, `bufferedShapes` are the shapes of the
`m_bufferedGradients` shadows, `bufferedHeader` is `m_bufferedGradHeader`,
`recvHeadersCount` is `m_recvHeaders.size()`, and `iterationCount` is
`m_iterationCount`. -/
structure AggState where
  initialized : Bool
  packedIdx : List Nat
  gradientIndexToAggregate : List Nat
  pendingValid : Bool
  bufferedShapes : Option (List GradShape)
  bufferedHeader : Option DistGradHeader
  recvHeadersCount : Nat
  iterationCount : Nat
deriving DecidableEq, Repr

/-- State of a freshly constructed aggregator. -/
def AggState.initial : AggState :=
  { initialized := false
    packedIdx := []
    gradientIndexToAggregate := []
    pendingValid := false
    bufferedShapes := none
    bufferedHeader := none
    recvHeadersCount := 0
    iterationCount := 0 }

/-- Embeds `SimpleDistGradAggregator::ResetState`: on the first call it classifies
the gradients, allocates the packed buffer and the async shadows, and on the
main rank pushes `NumProc() - 1` receive headers; on a later call with
`resetState` set it checks for a pending async task (fatal `LogicError`) and
zeroes the shadow gradients and shadow header; otherwise it is a no-op. -/
def ResetState (cfg : AggConfig) (st : AggState) (shapes : List GradShape)
    (numEvalNodes : Nat) (resetState : Bool) : Except AggError AggState :=
  if !st.initialized then
    let pt := resetStateClassify cfg (shapes.map GradShape.numElements)
    .ok { st with
      initialized := true
      packedIdx := pt.1
      gradientIndexToAggregate := pt.2
      bufferedShapes := if cfg.useAsync then some shapes else st.bufferedShapes
      bufferedHeader := if cfg.useAsync then some (DistGradHeader.create numEvalNodes)
        else st.bufferedHeader
      recvHeadersCount := if cfg.isMainNode then st.recvHeadersCount + (cfg.worldSize - 1)
        else st.recvHeadersCount }
  else if resetState then
    if cfg.useAsync && st.pendingValid then
      .error .pendingAtReset
    else
      .ok { st with
        bufferedHeader := if cfg.useAsync then
            some ((st.bufferedHeader.getD default).clear)
          else st.bufferedHeader }
  else
    .ok st

/-- Embeds `SimpleDistGradAggregator::AggregateGradients` as a rank-local step.
The other ranks' pre-aggregation headers are a parameter (`otherHeaders`);
the value-level gradient reduction is modelled separately by
`AggregateGradientsImpl`.  The returned triple is the updated member state,
the header the caller observes after the call, and the `bool` result. -/
def AggregateGradients (cfg : AggConfig) (st : AggState) (shapes : List GradShape)
    (header : DistGradHeader) (resetState : Bool)
    (otherHeaders : List DistGradHeader) :
    Except AggError (AggState × DistGradHeader × Bool) :=
  if cfg.worldSize = 1 then
    .ok (st, header, header.numSamples != 0)
  else
    match ResetState cfg st shapes header.evalErrors.length resetState with
    | .error e => .error e
    | .ok st1 =>
      let st2 := { st1 with iterationCount := st1.iterationCount + 1 }
      if cfg.useAsync then
        -- Wait for (and consume) any pending async aggregation, then swap
        -- each gradient with its shadow and the header with the shadow
        -- header; dispatch a new task only if the previous iteration did
        -- real work or the caller asked for a reset.
        let st3 := { st2 with pendingValid := false }
        match st3.bufferedShapes with
        | none => .error .shadowMismatch
        | some shadowShapes =>
          if shadowShapes ≠ shapes then
            .error .shadowMismatch
          else
            let prevHeader := st3.bufferedHeader.getD default
            let st4 := { st3 with bufferedHeader := some header }
            if resetState || (prevHeader.numSamples != 0) then
              .ok ({ st4 with pendingValid := true }, prevHeader, true)
            else
              .ok (st4, prevHeader, false)
      else
        let post := aggregateHeaderFold header otherHeaders
        .ok (st2, post, post.numSamples != 0)

/-- Embeds `SimpleDistGradAggregator::AsyncAggregateGradHeader` (second source
version): the single-rank fast path, then — on the main rank — a push of
`NumProc() - 1` freshly created receive headers, then the rendezvous
(`AsyncAggregateGradHeaderImpl`: fold the received headers into the local
one and broadcast), returning whether any rank saw samples. -/
def AsyncAggregateGradHeader (cfg : AggConfig) (st : AggState)
    (header : DistGradHeader) (otherHeaders : List DistGradHeader) :
    AggState × DistGradHeader × Bool :=
  if cfg.worldSize = 1 then
    (st, header, header.numSamples != 0)
  else
    let st1 := if cfg.isMainNode then
        { st with recvHeadersCount := st.recvHeadersCount + (cfg.worldSize - 1) }
      else st
    let post := aggregateHeaderFold header otherHeaders
    (st1, post, post.numSamples != 0)

/-! ## `DistributedAllReduce` transport dispatch -/

/-- Transport-selection inputs of `DistributedAllReduce`:
`m_mpi->UseGpuGdr()`, `m_nccl->IsSupported()`, and whether the matrix lives
on the CPU device. -/
structure DistCtx where
  useGpuGdr : Bool
  ncclSupported : Bool
  deviceIsCPU : Bool
deriving DecidableEq, Repr

/-- Error outcome of `DistributedAllReduce` (the unreachable-branch
`LogicError`). -/
inductive DistError
  | logicError
deriving DecidableEq, Repr

/-- Embeds `SimpleDistGradAggregator::DistributedAllReduce` over the per-rank
copies of one tensor: the staged branch copies to the host, calls
`m_mpi->AllReduce(buf, count, op)` and copies back; the CPU branch calls
`m_mpi->Iallreduce(…, op, …)` and waits; the GDR branch calls the
two-argument `m_mpi->AllReduce(buf, count)` (default sum, `op` unused); the
NCCL branch calls `m_nccl->AllReduce(buf, buf, count, op)`. -/
def DistributedAllReduce (ctx : DistCtx) (op : MPIOp) (bufs : List (List Int)) :
    Except DistError (List Int) :=
  if ctx.useGpuGdr = false ∧ ctx.deviceIsCPU = false ∧ ctx.ncclSupported = false then
    .ok (copyHostToDevice (mpiReduceWith op (bufs.map copyDeviceToHost)))
  else if ctx.ncclSupported = false then
    if ctx.useGpuGdr = false then
      .ok (mpiIallreduce op bufs)
    else if ctx.deviceIsCPU = false then
      .ok (mpiAllReduceDefault bufs)
    else
      .error .logicError
  else
    .ok (ncclAllReduceOp op bufs)

/-! ## Concrete fixtures used by witnesses and counterexamples -/

/-- Two ranks, synchronous, main node, 4-byte elements, 32 KiB pack
threshold, packed-buffer allocation succeeding. -/
def cfgSync2 : AggConfig := ⟨2, false, true, 4, 32768, true⟩

/-- Two ranks, asynchronous aggregation enabled. -/
def cfgAsync2 : AggConfig := ⟨2, true, true, 4, 32768, true⟩

/-- Single-rank world. -/
def cfgSolo : AggConfig := ⟨1, false, true, 4, 32768, true⟩

/-- Header of a rank that processed ten samples. -/
def hdrTen : DistGradHeader := ⟨10, 10, 1, []⟩

/-- Header of a rank that processed five samples. -/
def hdrFive : DistGradHeader := ⟨5, 5, 2, []⟩

/-- Unwraps a successful `ResetState` outcome (fixtures only hit `.ok`). -/
def stepOk (r : Except AggError AggState) : AggState :=
  match r with
  | .ok s => s
  | .error _ => AggState.initial

/-! ## Claim theorems -/

/-- C6: calling the aggregator with `reset_state = true` on an initialized
async-mode instance while the previous async task is still pending reports
the fatal `LogicError` instead of proceeding. -/
theorem C6_reset_pending_fatal (cfg : AggConfig) (st : AggState)
    (shapes : List GradShape) (header : DistGradHeader)
    (otherHeaders : List DistGradHeader)
    (hW : cfg.worldSize ≠ 1) (hini : st.initialized = true)
    (hasync : cfg.useAsync = true) (hpend : st.pendingValid = true) :
    AggregateGradients cfg st shapes header true otherHeaders
      = .error .pendingAtReset := by
  rw [AggregateGradients, if_neg hW, ResetState]
  simp [hini, hasync, hpend]

/-- C6 witness: the error fires on a concrete initialized async state. -/
theorem C6_reset_pending_fatal_witness :
    AggregateGradients cfgAsync2
      { AggState.initial with initialized := true, pendingValid := true }
      [⟨2, 2⟩] hdrTen true [] = .error .pendingAtReset :=
  C6_reset_pending_fatal cfgAsync2 _ [⟨2, 2⟩] hdrTen []
    (by decide) rfl rfl rfl

/-- C7 counterexample: after a first call whose only gradient is large
(standalone), a second call with `reset_state = true` and a small gradient
does not re-classify — the partition keeps the first call's shape instead of
the classification of the new sizes. -/
theorem C7_no_reclassification_counterexample :
    (stepOk (ResetState cfgSync2
        (stepOk (ResetState cfgSync2 AggState.initial [⟨100, 100⟩] 0 false))
        [⟨1, 10⟩] 0 true)).packedIdx = []
    ∧ (resetStateClassify cfgSync2 ([(⟨1, 10⟩ : GradShape)].map GradShape.numElements)).1
        = [0]
    ∧ ([] : List Nat) ≠ [0] := by
  decide

/-- C7 (amended): the gradients are classified into packed and standalone
sets only on the first call; every later call — with or without
`reset_state` — leaves the partition untouched, so it keeps reflecting the
sizes supplied to the first call. -/
theorem C7_classification_first_call_only (cfg : AggConfig) (st : AggState)
    (shapes : List GradShape) (numEvalNodes : Nat) (resetState : Bool)
    (st' : AggState)
    (hok : ResetState cfg st shapes numEvalNodes resetState = .ok st') :
    (st.initialized = false →
      (st'.packedIdx, st'.gradientIndexToAggregate)
        = resetStateClassify cfg (shapes.map GradShape.numElements))
    ∧ (st.initialized = true →
      st'.packedIdx = st.packedIdx
      ∧ st'.gradientIndexToAggregate = st.gradientIndexToAggregate) := by
  constructor
  · intro hini
    rw [ResetState] at hok
    simp only [hini, Bool.not_false, if_pos] at hok
    obtain rfl := (Except.ok.injEq _ _).mp hok
    rfl
  · intro hini
    rw [ResetState, hini] at hok
    simp only [Bool.not_true] at hok
    rw [if_neg Bool.false_ne_true] at hok
    by_cases hrs : resetState = true
    · rw [if_pos hrs] at hok
      by_cases hpend : (cfg.useAsync && st.pendingValid) = true
      · rw [if_pos hpend] at hok
        exact absurd hok (by simp)
      · rw [if_neg hpend] at hok
        obtain rfl := (Except.ok.injEq _ _).mp hok
        exact ⟨rfl, rfl⟩
    · rw [if_neg hrs] at hok
      obtain rfl := (Except.ok.injEq _ _).mp hok
      exact ⟨rfl, rfl⟩

/-- C7 amended-claim witness at a concrete initialized state. -/
theorem C7_classification_first_call_only_witness :
    ({ AggState.initial with initialized := true, gradientIndexToAggregate := [0]
        } : AggState).initialized = true
    ∧ (stepOk (ResetState cfgSync2
        { AggState.initial with initialized := true, gradientIndexToAggregate := [0] }
        [⟨1, 10⟩] 0 true)).gradientIndexToAggregate = [0] := by
  refine ⟨rfl, ?_⟩
  have h := C7_classification_first_call_only cfgSync2
    { AggState.initial with initialized := true, gradientIndexToAggregate := [0] }
    [⟨1, 10⟩] 0 true _ rfl
  exact (h.2 rfl).2

/-- C8: growth of the receive-header array past `world_size - 1`.  Two calls
to `AsyncAggregateGradHeader` on the main rank of a two-rank world leave
`m_recvHeaders` with 2 entries, although the invariant demands exactly
`world_size - 1 = 1`; the second source file pushes `NumProc() - 1` freshly
created headers on every call instead of only once. -/
theorem C8_recvHeaders_growth :
    ((AsyncAggregateGradHeader cfgSync2
        (AsyncAggregateGradHeader cfgSync2 AggState.initial hdrTen [hdrFive]).1
        hdrTen [hdrFive]).1).recvHeadersCount = 2
    ∧ cfgSync2.worldSize - 1 = 1
    ∧ (2 : Nat) ≠ 1 := by
  decide

/-- C9: when the packed-buffer allocation fails during initialization even
though some elements were packed, the aggregator falls back to treating
every gradient as standalone: the packed list is empty and the standalone
list is exactly `0, …, N-1` with no sentinel entry. -/
theorem C9_alloc_failure_fallback (cfg : AggConfig) (st : AggState)
    (shapes : List GradShape) (numEvalNodes : Nat) (resetState : Bool)
    (st' : AggState)
    (hini : st.initialized = false)
    (halloc : cfg.allocOk = false)
    (hattempt : 0 < packedTotal cfg (shapes.map GradShape.numElements))
    (hNN : shapes.length ≤ NONE)
    (hok : ResetState cfg st shapes numEvalNodes resetState = .ok st') :
    st'.packedIdx = []
    ∧ st'.gradientIndexToAggregate = List.range shapes.length
    ∧ NONE ∉ st'.gradientIndexToAggregate := by
  rw [ResetState] at hok
  simp only [hini, Bool.not_false, if_pos] at hok
  have hclass : resetStateClassify cfg (shapes.map GradShape.numElements)
      = ([], List.range (shapes.map GradShape.numElements).length) := by
    rw [resetStateClassify, if_neg]
    intro hcond
    rw [halloc] at hcond
    exact Bool.noConfusion hcond.2
  obtain rfl := (Except.ok.injEq _ _).mp hok
  refine ⟨by simp [hclass], by simp [hclass], ?_⟩
  simp only [hclass, List.length_map]
  intro hmem
  have := List.mem_range.mp hmem
  omega

/-- C9 witness: one small and one large gradient, allocation failing. -/
theorem C9_alloc_failure_fallback_witness :
    (stepOk (ResetState ⟨2, false, true, 4, 32768, false⟩ AggState.initial
        [⟨1, 10⟩, ⟨100, 100⟩] 0 false)).gradientIndexToAggregate = [0, 1] := by
  have h := C9_alloc_failure_fallback ⟨2, false, true, 4, 32768, false⟩
    AggState.initial [⟨1, 10⟩, ⟨100, 100⟩] 0 false
    (stepOk (ResetState ⟨2, false, true, 4, 32768, false⟩ AggState.initial
        [⟨1, 10⟩, ⟨100, 100⟩] 0 false))
    rfl rfl (by decide) (by decide) rfl
  rw [h.2.1]
  decide

/-- C10 counterexample: on the NCCL branch the caller-supplied `op` is
passed through to `NcclComm::AllReduce` rather than being dropped for the
default sum, so `op` is not applied only on the staged and CPU branches as
the claim states: with `op = max` over per-rank buffers `[2]` and `[3]` the
NCCL branch yields `[3]`, not the sum `[5]`. -/
theorem C10_op_only_staged_cpu_counterexample :
    DistributedAllReduce ⟨false, true, false⟩ MPIOp.opMax [[2], [3]] = .ok [3]
    ∧ DistributedAllReduce ⟨false, true, false⟩ MPIOp.opMax [[2], [3]]
        ≠ .ok (mpiReduceWith MPIOp.opSum [[2], [3]]) := by
  have h3 : DistributedAllReduce ⟨false, true, false⟩ MPIOp.opMax [[2], [3]]
      = .ok ([3] : List Int) := rfl
  refine ⟨h3, ?_⟩
  rw [h3]
  intro h
  exact absurd (Except.ok.inj h) (by decide)

/-- C10 (amended): `DistributedAllReduce` applies the caller-supplied `op`
on the staged GPU-to-CPU branch, the non-blocking CPU branch and the NCCL
branch; only the GPU-direct (GDR, non-NCCL, GPU) branch ignores it and
performs the default sum, so for `op = max` the GDR branch and the CPU
branch produce different results on identical inputs. -/
theorem C10_op_per_branch (op : MPIOp) (bufs : List (List Int)) (g c : Bool) :
    DistributedAllReduce ⟨false, false, false⟩ op bufs = .ok (mpiReduceWith op bufs)
    ∧ DistributedAllReduce ⟨false, false, true⟩ op bufs = .ok (mpiReduceWith op bufs)
    ∧ DistributedAllReduce ⟨g, true, c⟩ op bufs = .ok (mpiReduceWith op bufs)
    ∧ DistributedAllReduce ⟨true, false, false⟩ op bufs
        = .ok (mpiReduceWith MPIOp.opSum bufs)
    ∧ DistributedAllReduce ⟨true, false, false⟩ MPIOp.opMax [[2], [3]]
        ≠ DistributedAllReduce ⟨false, false, true⟩ MPIOp.opMax [[2], [3]] := by
  refine ⟨?_, ?_, ?_, ?_, ?_⟩
  case refine_5 =>
    have h5 : DistributedAllReduce ⟨true, false, false⟩ MPIOp.opMax [[2], [3]]
        = .ok ([5] : List Int) := rfl
    have h3 : DistributedAllReduce ⟨false, false, true⟩ MPIOp.opMax [[2], [3]]
        = .ok ([3] : List Int) := rfl
    rw [h5, h3]
    intro h
    exact absurd (Except.ok.inj h) (by decide)
  all_goals
    simp [DistributedAllReduce, mpiIallreduce, mpiAllReduceDefault,
      ncclAllReduceOp, copyHostToDevice, map_copyDeviceToHost]

/-- C2: after `AggregateGradients`, the statistics header on every rank is
the elementwise sum of the per-rank pre-aggregation headers: the main rank
folds exactly `W - 1` received headers (in any completion order) into its
own via `Aggregate(other, reset := true)` and broadcasts the result, so all
ranks observe identical aggregated statistics. -/
theorem C2_header_elementwise_sum (h0 : DistGradHeader)
    (others arrival : List DistGradHeader) (W : Nat)
    (hW : W = others.length + 1)
    (hperm : arrival.Perm others)
    (hlen : ∀ h ∈ others, h.evalErrors.length = h0.evalErrors.length) :
    arrival.length = W - 1
    ∧ (aggregateHeaderFold h0 arrival).numSamples
        = h0.numSamples + (others.map DistGradHeader.numSamples).sum
    ∧ (aggregateHeaderFold h0 arrival).numSamplesWithLabel
        = h0.numSamplesWithLabel + (others.map DistGradHeader.numSamplesWithLabel).sum
    ∧ (aggregateHeaderFold h0 arrival).criterion
        = h0.criterion + (others.map DistGradHeader.criterion).sum
    ∧ (aggregateHeaderFold h0 arrival).evalErrors.length = h0.evalErrors.length
    ∧ (∀ k, k < h0.evalErrors.length →
        (aggregateHeaderFold h0 arrival).evalErrors.getD k (0, 0)
          = ((h0.evalErrors.getD k (0, 0)).1
                + (others.map fun x => (x.evalErrors.getD k (0, 0)).1).sum,
             (h0.evalErrors.getD k (0, 0)).2
                + (others.map fun x => (x.evalErrors.getD k (0, 0)).2).sum))
    ∧ (∀ r, r < W →
        (bcastHeaders (aggregateHeaderFold h0 arrival) W).getD r default
          = aggregateHeaderFold h0 arrival) := by
  have hlarr : ∀ h ∈ arrival, h.evalErrors.length = h0.evalErrors.length :=
    fun h hh => hlen h (hperm.mem_iff.mp hh)
  obtain ⟨helen, heget⟩ := aggregateHeaderFold_evalErrors h0 arrival hlarr
  refine ⟨by rw [hperm.length_eq, hW]; omega, ?_, ?_, ?_, helen, ?_, ?_⟩
  · rw [aggregateHeaderFold_numSamples, (hperm.map DistGradHeader.numSamples).sum_eq]
  · rw [aggregateHeaderFold_numSamplesWithLabel,
      (hperm.map DistGradHeader.numSamplesWithLabel).sum_eq]
  · rw [aggregateHeaderFold_criterion, (hperm.map DistGradHeader.criterion).sum_eq]
  · intro k _
    rw [heget k, (hperm.map fun x => (x.evalErrors.getD k (0, 0)).1).sum_eq,
      (hperm.map fun x => (x.evalErrors.getD k (0, 0)).2).sum_eq]
  · intro r hr
    rw [bcastHeaders, List.getD_eq_getElem _ _ (by simpa using hr)]
    simp

/-- C2 witness: three ranks with samples 10/5/20, criteria 1/2/3, one eval
error each; the fold over an out-of-order arrival yields the elementwise
sum and the broadcast hands it to both other ranks. -/
theorem C2_header_elementwise_sum_witness :
    (aggregateHeaderFold ⟨10, 10, 1, [(1, 2)]⟩
        [⟨20, 20, 3, [(5, 6)]⟩, ⟨5, 5, 2, [(3, 4)]⟩]).numSamples = 35
    ∧ (aggregateHeaderFold ⟨10, 10, 1, [(1, 2)]⟩
        [⟨20, 20, 3, [(5, 6)]⟩, ⟨5, 5, 2, [(3, 4)]⟩]).evalErrors.getD 0 (0, 0)
      = (9, 12) := by
  have h := C2_header_elementwise_sum ⟨10, 10, 1, [(1, 2)]⟩
    [⟨5, 5, 2, [(3, 4)]⟩, ⟨20, 20, 3, [(5, 6)]⟩]
    [⟨20, 20, 3, [(5, 6)]⟩, ⟨5, 5, 2, [(3, 4)]⟩] 3 rfl
    (List.Perm.swap _ _ _) (by decide)
  refine ⟨?_, ?_⟩
  · rw [h.2.1]
    decide
  · rw [h.2.2.2.2.2.1 0 (by decide)]
    decide

/-- C3: `AggregateGradients` returns `true` iff any rank processed samples.
With a single-rank world it returns `header.numSamples != 0` at once,
leaving the state and header untouched; on the synchronous path the result
is whether the post-aggregation (folded and broadcast) header counts any
samples; on the asynchronous path the result is `true` exactly when a
background task was dispatched, i.e. when `reset_state` is set or the
swapped-in previous-iteration header has nonzero samples, which also
matches the validity of the pending future after the call. -/
theorem C3_return_value (cfg : AggConfig) (st : AggState)
    (shapes : List GradShape) (header : DistGradHeader) (resetState : Bool)
    (otherHeaders : List DistGradHeader) :
    (cfg.worldSize = 1 →
      AggregateGradients cfg st shapes header resetState otherHeaders
        = .ok (st, header, header.numSamples != 0))
    ∧ (∀ st' h' b, cfg.worldSize ≠ 1 → cfg.useAsync = false →
        AggregateGradients cfg st shapes header resetState otherHeaders
          = .ok (st', h', b) →
        h' = aggregateHeaderFold header otherHeaders ∧ b = (h'.numSamples != 0))
    ∧ (∀ st' h' b, cfg.worldSize ≠ 1 → cfg.useAsync = true →
        AggregateGradients cfg st shapes header resetState otherHeaders
          = .ok (st', h', b) →
        b = (resetState || (h'.numSamples != 0)) ∧ b = st'.pendingValid) := by
  refine ⟨?_, ?_, ?_⟩
  · intro h1
    rw [AggregateGradients, if_pos h1]
  · intro st' h' b hW hasync hok
    rw [AggregateGradients, if_neg hW] at hok
    cases hres : ResetState cfg st shapes header.evalErrors.length resetState with
    | error e =>
      rw [hres] at hok
      exact absurd hok (by simp)
    | ok st1 =>
      rw [hres] at hok
      simp only [hasync, Bool.false_eq_true, if_false] at hok
      obtain ⟨h1, h2, h3⟩ := by simpa using hok
      refine ⟨h2.symm, ?_⟩
      rw [← h3, ← h2]
  · intro st' h' b hW hasync hok
    rw [AggregateGradients, if_neg hW] at hok
    cases hres : ResetState cfg st shapes header.evalErrors.length resetState with
    | error e =>
      rw [hres] at hok
      exact absurd hok (by simp)
    | ok st1 =>
      rw [hres] at hok
      simp only [hasync, if_true] at hok
      split at hok
      · exact absurd hok (by simp)
      · rename_i shadowShapes hbs
        split at hok
        · exact absurd hok (by simp)
        · split at hok
          · rename_i hsh hfire
            obtain ⟨h1, h2, h3⟩ := by simpa using hok
            refine ⟨?_, ?_⟩
            · rw [h3, ← h2]
              exact hfire.symm
            · rw [h3, ← h1]
          · rename_i hsh hfire
            simp only [Bool.not_eq_true] at hfire
            obtain ⟨h1, h2, h3⟩ := by simpa using hok
            refine ⟨?_, ?_⟩
            · rw [h3, ← h2]
              exact hfire.symm
            · rw [h3, ← h1]

/-- C3 witness: single-rank world returns `numSamples != 0` with nothing
else happening; a two-rank sync call returns `true` with the summed header;
an async call with an empty previous iteration returns `false`. -/
theorem C3_return_value_witness :
    AggregateGradients cfgSolo AggState.initial [⟨2, 2⟩] hdrTen false []
      = .ok (AggState.initial, hdrTen, true) := by
  have h := (C3_return_value cfgSolo AggState.initial [⟨2, 2⟩] hdrTen false []).1 rfl
  rw [h]
  rfl

lemma packEligible_iff (cfg : AggConfig) (sizes : List Nat) (i : Nat) :
    packEligible cfg sizes i = true ↔
      (cfg.useAsync = false ∧ cfg.elemSize * sizes.getD i 0 ≤ cfg.packThresholdBytes) := by
  rw [packEligible, Bool.and_eq_true, Bool.not_eq_true', decide_eq_true_eq]

/-- C4: after initialization (with the packed-buffer allocation succeeding
and genuinely dense, non-empty gradients), position `i` is packed iff its
byte size is at most the threshold and async aggregation is off; every
position lies in exactly one of the two index lists; and the sentinel `NONE`
heads the standalone list exactly when the packed set is non-empty. -/
theorem C4_partition_invariant (cfg : AggConfig) (st : AggState)
    (shapes : List GradShape) (numEvalNodes : Nat) (resetState : Bool)
    (st' : AggState)
    (hini : st.initialized = false)
    (halloc : cfg.allocOk = true)
    (hpos : ∀ g ∈ shapes, 0 < g.numElements)
    (hNN : shapes.length < NONE)
    (hok : ResetState cfg st shapes numEvalNodes resetState = .ok st') :
    (∀ i, i < shapes.length →
      ((i ∈ st'.packedIdx ↔
          (cfg.elemSize * (shapes.getD i default).numElements ≤ cfg.packThresholdBytes
            ∧ cfg.useAsync = false))
        ∧ (i ∈ st'.packedIdx ↔ i ∉ st'.gradientIndexToAggregate)
        ∧ (i ∈ st'.packedIdx ∨ i ∈ st'.gradientIndexToAggregate)))
    ∧ (st'.packedIdx ≠ [] ↔ st'.gradientIndexToAggregate.head? = some NONE) := by
  rw [ResetState] at hok
  simp only [hini, Bool.not_false, if_pos] at hok
  obtain rfl := (Except.ok.injEq _ _).mp hok
  set sizes := shapes.map GradShape.numElements with hsizes
  have hlen : sizes.length = shapes.length := by simp [hsizes]
  have hszpos : ∀ s ∈ sizes, 0 < s := by
    intro s hs
    obtain ⟨g, hg, rfl⟩ := List.mem_map.mp hs
    exact hpos g hg
  have hgetD : ∀ i, i < shapes.length →
      sizes.getD i 0 = (shapes.getD i default).numElements := by
    intro i hi
    exact getD_map_of_lt GradShape.numElements shapes i default 0 hi
  have hP1 : ({ st with
      initialized := true
      packedIdx := (resetStateClassify cfg sizes).1
      gradientIndexToAggregate := (resetStateClassify cfg sizes).2
      bufferedShapes := if cfg.useAsync then some shapes else st.bufferedShapes
      bufferedHeader := if cfg.useAsync then some (DistGradHeader.create numEvalNodes)
        else st.bufferedHeader
      recvHeadersCount := if cfg.isMainNode then st.recvHeadersCount + (cfg.worldSize - 1)
        else st.recvHeadersCount } : AggState).packedIdx
      = (resetStateClassify cfg sizes).1 := rfl
  rw [hP1]
  have hP2 : ({ st with
      initialized := true
      packedIdx := (resetStateClassify cfg sizes).1
      gradientIndexToAggregate := (resetStateClassify cfg sizes).2
      bufferedShapes := if cfg.useAsync then some shapes else st.bufferedShapes
      bufferedHeader := if cfg.useAsync then some (DistGradHeader.create numEvalNodes)
        else st.bufferedHeader
      recvHeadersCount := if cfg.isMainNode then st.recvHeadersCount + (cfg.worldSize - 1)
        else st.recvHeadersCount } : AggState).gradientIndexToAggregate
      = (resetStateClassify cfg sizes).2 := rfl
  rw [hP2]
  by_cases hcond : 0 < packedTotal cfg sizes ∧ cfg.allocOk = true
  case pos =>
    have hC1 : (resetStateClassify cfg sizes).1 = classifyPacked cfg sizes := by
      rw [resetStateClassify, if_pos hcond]
    have hC2 : (resetStateClassify cfg sizes).2
        = NONE :: classifyStandalone cfg sizes := by
      rw [resetStateClassify, if_pos hcond]
    rw [hC1, hC2]
    have hpne : classifyPacked cfg sizes ≠ [] := by
      intro hpe
      rw [packedTotal, hpe] at hcond
      simp at hcond
    refine ⟨?_, ?_⟩
    · intro i hi
      have hiN : i < sizes.length := by omega
      refine ⟨?_, ?_, ?_⟩
      · rw [mem_classifyPacked, packEligible_iff, hgetD i hi]
        constructor
        · intro h
          exact ⟨h.2.2, h.2.1⟩
        · intro h
          exact ⟨hiN, h.2, h.1⟩
      · constructor
        · intro hp hmem
          rcases List.mem_cons.mp hmem with hN | hS
          · omega
          · have h1 := ((mem_classifyPacked cfg sizes i).mp hp).2
            have h2 := ((mem_classifyStandalone cfg sizes i).mp hS).2
            rw [h1] at h2
            exact Bool.noConfusion h2
        · intro hmem
          by_cases helig : packEligible cfg sizes i = true
          · exact (mem_classifyPacked cfg sizes i).mpr ⟨hiN, helig⟩
          · exact absurd (List.mem_cons_of_mem NONE
              ((mem_classifyStandalone cfg sizes i).mpr
                ⟨hiN, by simpa using helig⟩)) hmem
      · by_cases helig : packEligible cfg sizes i = true
        · exact Or.inl ((mem_classifyPacked cfg sizes i).mpr ⟨hiN, helig⟩)
        · exact Or.inr (List.mem_cons_of_mem NONE
            ((mem_classifyStandalone cfg sizes i).mpr ⟨hiN, by simpa using helig⟩))
    · simp [hpne]
  case neg =>
    have htz : packedTotal cfg sizes = 0 := by
      rcases Nat.eq_zero_or_pos (packedTotal cfg sizes) with h | h
      · exact h
      · exact absurd ⟨h, halloc⟩ hcond
    have hpe : classifyPacked cfg sizes = [] := packedTotal_zero cfg sizes hszpos htz
    have hC1 : (resetStateClassify cfg sizes).1 = [] := by
      rw [resetStateClassify, if_neg hcond]
    have hC2 : (resetStateClassify cfg sizes).2 = List.range sizes.length := by
      rw [resetStateClassify, if_neg hcond]
    rw [hC1, hC2]
    refine ⟨?_, ?_⟩
    · intro i hi
      have hiN : i < sizes.length := by omega
      refine ⟨?_, ?_, ?_⟩
      · constructor
        · intro h
          exact absurd h (List.not_mem_nil i)
        · intro h
          have : i ∈ classifyPacked cfg sizes :=
            (mem_classifyPacked cfg sizes i).mpr
              ⟨hiN, (packEligible_iff cfg sizes i).mpr ⟨h.2, by rw [hgetD i hi]; exact h.1⟩⟩
          rw [hpe] at this
          exact absurd this (List.not_mem_nil i)
      · constructor
        · intro h
          exact absurd h (List.not_mem_nil i)
        · intro h
          exact absurd (List.mem_range.mpr hiN) h
      · exact Or.inr (List.mem_range.mpr hiN)
    · constructor
      · intro h
        exact absurd rfl h
      · intro h
        cases hh : (List.range sizes.length).head? with
        | none => rw [hh] at h; exact Option.noConfusion h
        | some x =>
          rw [hh] at h
          have hx : x ∈ List.range sizes.length := List.mem_of_mem_head? hh
          have := List.mem_range.mp hx
          have : x = NONE := Option.some.inj h
          omega

/-- C4 witness: one small and one large gradient, sync mode, allocation
succeeding: position 0 is packed, position 1 standalone, sentinel present. -/
theorem C4_partition_invariant_witness :
    (stepOk (ResetState cfgSync2 AggState.initial [⟨1, 10⟩, ⟨100, 100⟩] 0 false)).packedIdx
      = [0]
    ∧ (0 ∈ (stepOk (ResetState cfgSync2 AggState.initial
        [⟨1, 10⟩, ⟨100, 100⟩] 0 false)).packedIdx
      ↔ (cfgSync2.elemSize * (([⟨1, 10⟩, ⟨100, 100⟩] :
          List GradShape).getD 0 default).numElements ≤ cfgSync2.packThresholdBytes
        ∧ cfgSync2.useAsync = false)) := by
  have h := C4_partition_invariant cfgSync2 AggState.initial [⟨1, 10⟩, ⟨100, 100⟩] 0 false
    (stepOk (ResetState cfgSync2 AggState.initial [⟨1, 10⟩, ⟨100, 100⟩] 0 false))
    rfl rfl (by decide) (by decide) rfl
  refine ⟨by decide, ((h.1 0 (by decide)).1)⟩

lemma zeroIfNoSamples_of_valid (inp : RankInput)
    (hvalid : inp.header.numSamples = 0 →
      ∀ g ∈ inp.grads, g = List.replicate g.length 0) :
    zeroIfNoSamples inp = inp.grads := by
  rw [zeroIfNoSamples]
  split
  case isTrue h =>
    conv_rhs => rw [← List.map_id inp.grads]
    apply List.map_congr_left
    intro g hg
    exact (hvalid h g hg).symm
  case isFalse h => rfl

/-- C1: with world size above one and valid dense inputs (a rank that
processed no samples holds all-zero gradients, as its header asserts), every
rank's copy of every gradient position — packed or standalone, under any of
the four transport branches — ends up as the plain elementwise sum of the
per-rank pre-aggregation gradients, with no scaling. -/
theorem C1_gradient_sum_all_transports (br : Transport) (cfg : AggConfig)
    (sizes : List Nat) (inputs : List RankInput)
    (hW : 1 < inputs.length)
    (hshapes : ∀ inp ∈ inputs, inp.grads.map List.length = sizes)
    (hNN : sizes.length ≤ NONE)
    (hvalid : ∀ inp ∈ inputs, inp.header.numSamples = 0 →
      ∀ g ∈ inp.grads, g = List.replicate g.length 0) :
    ∀ r, r < inputs.length → ∀ i, i < sizes.length →
      ((AggregateGradientsImpl br (resetStateClassify cfg sizes).1
          (resetStateClassify cfg sizes).2 inputs).getD r []).getD i []
        = sumAcross (inputs.map fun inp => inp.grads.getD i []) (sizes.getD i 0) := by
  intro r hr i hi
  rw [AggregateGradientsImpl_getD br cfg sizes inputs
    (by intro h; rw [h] at hW; simp at hW) hshapes hNN r hr i hi]
  have hmaps : inputs.map zeroIfNoSamples = inputs.map RankInput.grads := by
    apply List.map_congr_left
    intro inp hinp
    exact zeroIfNoSamples_of_valid inp (hvalid inp hinp)
  rw [hmaps, List.map_map]
  rfl

/-- C1 witness: spec scenario 1 — two ranks with one `2 x 2` gradient each,
`[[1,2],[3,4]]` plus `[[5,6],[7,8]]`, on the staged transport: both ranks
observe `[[6,8],[10,12]]` (flattened). -/
theorem C1_gradient_sum_all_transports_witness :
    ((AggregateGradientsImpl Transport.stagedGpu (resetStateClassify cfgSync2 [4]).1
        (resetStateClassify cfgSync2 [4]).2
        [⟨[[1, 2, 3, 4]], hdrTen⟩, ⟨[[5, 6, 7, 8]], hdrFive⟩]).getD 0 []).getD 0 []
      = sumAcross [[1, 2, 3, 4], [5, 6, 7, 8]] 4
    ∧ sumAcross [[1, 2, 3, 4], [5, 6, 7, 8]] 4 = [6, 8, 10, 12] := by
  refine ⟨?_, by decide⟩
  have h := C1_gradient_sum_all_transports Transport.stagedGpu cfgSync2 [4]
    [⟨[[1, 2, 3, 4]], hdrTen⟩, ⟨[[5, 6, 7, 8]], hdrFive⟩]
    (by decide) (by decide) (by decide) (by decide) 0 (by decide) 0 (by decide)
  exact h

lemma getD_replicate_zero (n k : Nat) : (List.replicate n (0 : Int)).getD k 0 = 0 := by
  induction n generalizing k with
  | zero => simp
  | succ m ih =>
    cases k with
    | zero => simp [List.replicate]
    | succ j =>
      rw [List.replicate, List.getD_cons_succ]
      exact ih j

lemma zeroed_getD_getD (inp : RankInput) (h : inp.header.numSamples = 0)
    (i k : Nat) : ((zeroIfNoSamples inp).getD i []).getD k 0 = 0 := by
  rw [zeroIfNoSamples, if_pos h]
  by_cases hi : i < inp.grads.length
  · rw [getD_map_of_lt (fun g => List.replicate g.length (0 : Int)) inp.grads i [] [] hi]
    exact getD_replicate_zero _ k
  · have hdef : (inp.grads.map fun g => List.replicate g.length (0 : Int)).getD i [] = [] := by
      apply List.getD_eq_default
      simpa using hi
    rw [hdef]
    rfl

/-- Dropping the ranks that processed no samples from the sum changes
nothing, because their gradients were zeroed first. -/
lemma sumAcross_zeroed_eq_filter (inputs : List RankInput) (i n : Nat) :
    sumAcross ((inputs.map zeroIfNoSamples).map fun g => g.getD i []) n
      = sumAcross ((inputs.filter fun inp => inp.header.numSamples != 0).map
          fun inp => inp.grads.getD i []) n := by
  rw [sumAcross, sumAcross]
  apply List.map_congr_left
  intro k _
  simp only [List.map_map]
  induction inputs with
  | nil => rfl
  | cons inp rest ih =>
    simp only [List.filter_cons]
    by_cases h : inp.header.numSamples = 0
    · have hfil : (inp.header.numSamples != 0) = false := by simp [h]
      rw [hfil]
      simp only [Bool.false_eq_true, if_false, List.map_cons, Function.comp_apply,
        List.sum_cons]
      rw [zeroed_getD_getD inp h i k, ih]
      ring
    · have hfil : (inp.header.numSamples != 0) = true := by simpa using h
      rw [hfil]
      simp only [if_true, List.map_cons, Function.comp_apply, List.sum_cons]
      rw [ih, show zeroIfNoSamples inp = inp.grads from by
        rw [zeroIfNoSamples, if_neg h]]

/-- C5: a rank entering the reduction with `num_samples == 0` has all its
local gradients set to zero beforehand, so every rank's final aggregated
gradient equals the sum over only the ranks that did process samples. -/
theorem C5_zero_sample_rank_zeroed (br : Transport) (cfg : AggConfig)
    (sizes : List Nat) (inputs : List RankInput)
    (hW : 1 < inputs.length)
    (hshapes : ∀ inp ∈ inputs, inp.grads.map List.length = sizes)
    (hNN : sizes.length ≤ NONE) :
    (∀ inp ∈ inputs, inp.header.numSamples = 0 →
      zeroIfNoSamples inp = inp.grads.map fun g => List.replicate g.length 0)
    ∧ ∀ r, r < inputs.length → ∀ i, i < sizes.length →
      ((AggregateGradientsImpl br (resetStateClassify cfg sizes).1
          (resetStateClassify cfg sizes).2 inputs).getD r []).getD i []
        = sumAcross ((inputs.filter fun inp => inp.header.numSamples != 0).map
            fun inp => inp.grads.getD i []) (sizes.getD i 0) := by
  constructor
  · intro inp _ h
    rw [zeroIfNoSamples, if_pos h]
  · intro r hr i hi
    rw [AggregateGradientsImpl_getD br cfg sizes inputs
      (by intro h; rw [h] at hW; simp at hW) hshapes hNN r hr i hi]
    exact sumAcross_zeroed_eq_filter inputs i (sizes.getD i 0)

/-- C5 witness: spec scenario 2 — rank 0 has `num_samples = 0` (its nonzero
buffer is discarded by the zeroing), rank 1 contributes `[1,1,1,1]`; the
result equals rank 1's gradient alone. -/
theorem C5_zero_sample_rank_zeroed_witness :
    ((AggregateGradientsImpl Transport.cpuNonBlocking (resetStateClassify cfgSync2 [4]).1
        (resetStateClassify cfgSync2 [4]).2
        [⟨[[9, 9, 9, 9]], ⟨0, 0, 0, []⟩⟩, ⟨[[1, 1, 1, 1]], ⟨7, 7, 0, []⟩⟩]).getD 0 []).getD 0 []
      = sumAcross ((([⟨[[9, 9, 9, 9]], ⟨0, 0, 0, []⟩⟩, ⟨[[1, 1, 1, 1]], ⟨7, 7, 0, []⟩⟩] :
            List RankInput).filter fun inp => inp.header.numSamples != 0).map
          fun inp => inp.grads.getD 0 []) 4
    ∧ sumAcross [[1, 1, 1, 1]] 4 = [1, 1, 1, 1] := by
  refine ⟨?_, by decide⟩
  exact (C5_zero_sample_rank_zeroed Transport.cpuNonBlocking cfgSync2 [4]
    [⟨[[9, 9, 9, 9]], ⟨0, 0, 0, []⟩⟩, ⟨[[1, 1, 1, 1]], ⟨7, 7, 0, []⟩⟩]
    (by decide) (by decide) (by decide)).2 0 (by decide) 0 (by decide)

end SDGA
